import Mathlib

/-!
Verification of the audio-format negotiation core of `gst/audioconvert/gstaudioconvert.c`.

The embedding models a GStreamer structure (`GstStructure`) restricted to the
fields the negotiation core reads and writes: `rate`, `channels`, `width`,
`depth`, `endianness`, `signed` and `channel-positions`, together with the
media-type name (`audio/x-raw-int` vs `audio/x-raw-float`), which is all of
the state `gst_audio_convert_transform_caps`, `gst_audio_convert_fixate_caps`
and `gst_audio_convert_parse_caps` touch.  A `GValue` becomes the inductive
`GVal` (fixed int, fixed boolean, int range, value list, channel-position
array).  External GStreamer helpers whose bodies are not part of this
repository's negotiation source (`gst_structure_fixate_field_nearest_int`,
`gst_structure_fixate_field_boolean`, `gst_value_intersect`,
`gst_audio_get_channel_positions`, `gst_audio_set_channel_positions`) are
modelled from the specification's description of them and are marked as such.
-/

/-- Channel-position tags (`GstAudioChannelPosition`), restricted to the tags
the source mentions: the distinguished none-position plus the positions of the
`default_positions` table. -/
inductive ChannelPos where
  | posNone
  | frontMono
  | frontLeft
  | frontRight
  | rearLeft
  | rearRight
  | frontCenter
  | lfe
  | rearCenter
  | sideLeft
  | sideRight
  deriving DecidableEq, Repr

/-- A `GValue` as used by the negotiation core: a fixed integer, a fixed
boolean, a closed integer range (`GST_TYPE_INT_RANGE`), a list of values
(`GST_TYPE_LIST`), or a fixed array of channel positions (`GST_TYPE_ARRAY`
holding the channel layout). -/
inductive GVal where
  | vint (v : Int)
  | vbool (b : Bool)
  | vintRange (lo hi : Int)
  | vlist (vs : List GVal)
  | varray (ps : List ChannelPos)
  deriving Repr

/-- Boolean equality on `GVal` (nested induction, so written by hand). -/
def GVal.beq : GVal → GVal → Bool
  | .vint a, .vint b => a == b
  | .vbool a, .vbool b => a == b
  | .vintRange a b, .vintRange c d => a == c && b == d
  | .varray a, .varray b => a == b
  | .vlist a, .vlist b => beqList a b
  | _, _ => false
where beqList : List GVal → List GVal → Bool
  | [], [] => true
  | a :: as, b :: bs => GVal.beq a b && beqList as bs
  | _, _ => false

/-- One caps structure as seen by the negotiation core: the media-type kind
plus the optional fields it uses.  `isFloat` is true for
`audio/x-raw-float`, false for `audio/x-raw-int`; `sign` is the `signed`
field and `chanPos` the `channel-positions` field. -/
structure AStruct where
  isFloat : Bool
  rate : Option GVal
  channels : Option GVal
  width : Option GVal
  depth : Option GVal
  endianness : Option GVal
  sign : Option GVal
  chanPos : Option GVal
  deriving Repr

/-- `G_LITTLE_ENDIAN`. -/
def littleEndian : Int := 1234

/-- `G_BIG_ENDIAN`. -/
def bigEndian : Int := 4321

/-- `G_BYTE_ORDER` of the host, taken little-endian. -/
def g_byte_order : Int := littleEndian

/-- `gst_structure_get_int`: succeeds exactly when the field is present and
holds a fixed integer. -/
def getInt : Option GVal → Option Int
  | some (.vint v) => some v
  | _ => none

/-- `gst_structure_get_boolean`: succeeds exactly when the field is present
and holds a fixed boolean. -/
def getBool : Option GVal → Option Bool
  | some (.vbool b) => some b
  | _ => none

/-- `gst_value_is_fixed`: ranges and lists are not fixed, concrete values
(ints, booleans, position arrays) are. -/
def isFixedVal : GVal → Bool
  | .vint _ => true
  | .vbool _ => true
  | .varray _ => true
  | .vintRange _ _ => false
  | .vlist _ => false

/-- A present field is fixed; an absent field imposes no constraint. -/
def optFixed : Option GVal → Bool
  | none => true
  | some g => isFixedVal g

/-- `gst_caps_is_fixed` for a single-structure caps: every present field
holds a fixed value. -/
def structIsFixed (s : AStruct) : Bool :=
  optFixed s.rate && optFixed s.channels && optFixed s.width &&
  optFixed s.depth && optFixed s.endianness && optFixed s.sign &&
  optFixed s.chanPos

/-- Membership of an integer in a field constraint: the denotation of a
`GVal` as a set of integers. -/
def intValMem (x : Int) : GVal → Bool
  | .vint v => x == v
  | .vintRange lo hi => decide (lo ≤ x) && decide (x ≤ hi)
  | .vlist vs => memList vs
  | _ => false
where memList : List GVal → Bool
  | [] => false
  | v :: vs => intValMem x v || memList vs

/-! ### Capability expander (`gst_audio_convert_transform_caps` and helpers) -/

/-- The ascending width list of `set_structure_widths`: `min, min+8, ...`
while `≤ max`, written with an explicit step count. -/
def widthListAux : Nat → Int → List Int
  | 0, _ => []
  | n + 1, w => w :: widthListAux n (w + 8)

/-- Number of iterations of the `for (width = min; width <= max; width += 8)`
loop in `set_structure_widths`. -/
def widthCount (mn mx : Int) : Nat :=
  if mx < mn then 0 else (mx - mn).toNat / 8 + 1

/-- `set_structure_widths`: a single fixed width when `min == max`, otherwise
the list of multiples-of-8 steps from `min` up to `max`. -/
def set_structure_widths (s : AStruct) (mn mx : Int) : AStruct :=
  if mn = mx then { s with width := some (.vint mn) }
  else
    { s with
      width := some (.vlist ((widthListAux (widthCount mn mx) mn).map GVal.vint)) }

/-- `set_structure_widths_32_and_64`: the fixed list {32, 64}. -/
def set_structure_widths_32_and_64 (s : AStruct) : AStruct :=
  { s with width := some (.vlist [.vint 32, .vint 64]) }

/-- `make_lossless_changes`: allow both byte orders; for float drop
depth/signedness and force widths {32, 64}; for int allow both signedness
values. -/
def make_lossless_changes (s : AStruct) (isfloat : Bool) : AStruct :=
  let s :=
    { s with endianness := some (.vlist [.vint littleEndian, .vint bigEndian]) }
  if isfloat then
    let s := { s with depth := none, sign := none }
    set_structure_widths_32_and_64 s
  else
    { s with sign := some (.vlist [.vbool true, .vbool false]) }

/-- `strip_width_64`: if the width field holds a list, drop the entries equal
to 64. -/
def strip_width_64 (s : AStruct) : AStruct :=
  match s.width with
  | some (.vlist vs) =>
    { s with width := some (.vlist (vs.filter (fun v => !GVal.beq v (.vint 64)))) }
  | _ => s

/-- `append_with_other_format`: the cross-kind variant of a structure (the
copy whose name is flipped, with the lossless relaxations of the other kind
applied, and width 64 stripped when going float → int). -/
def append_with_other_format (s : AStruct) (isfloat : Bool) : AStruct :=
  if isfloat then
    strip_width_64 (make_lossless_changes { s with isFloat := false } false)
  else
    make_lossless_changes { s with isFloat := true } true

/-- `structure_has_fixed_channel_positions`: `none` models a FALSE return
(the caller leaves `allow_mixing` TRUE); `some u` models a TRUE return with
out-parameter `unpositioned_layout = u`.  The inner position read models
`gst_audio_get_channel_positions` on a fixed layout array (positions are
returned only when the array length matches the channel count). -/
def structure_has_fixed_channel_positions (s : AStruct) : Option Bool :=
  match getInt s.channels with
  | none => none
  | some channels =>
    let fixedVal : Bool := match s.chanPos with
      | some g => isFixedVal g
      | none => false
    if fixedVal = false ∧ channels ≤ 8 then none
    else if fixedVal = false then some true
    else
      match s.chanPos with
      | some (.varray ps) =>
        if (ps.length : Int) = channels then
          some (decide (ps.head? = some ChannelPos.posNone))
        else some false
      | _ => some false

/-- The `allow_mixing` flag of `gst_audio_convert_transform_caps`: TRUE
unless the structure has a fixed channel count and
`structure_has_fixed_channel_positions` reports an unpositioned layout. -/
def allow_mixing (st : AStruct) : Bool :=
  match getInt st.channels with
  | none => true
  | some _ =>
    match structure_has_fixed_channel_positions st with
    | some u => !u
    | none => true

/-- The `channels` local of `gst_audio_convert_transform_caps`: initialized
to 0 and overwritten only when the field holds a fixed integer. -/
def chanVal (st : AStruct) : Int :=
  (getInt st.channels).getD 0

/-- Step 1 of the expander: the working structure `s` holding only the
negotiable fields of the input (`fields_used`), same media type, no
channel-positions. -/
def stripToNegotiable (st : AStruct) : AStruct :=
  { isFloat := st.isFloat, rate := st.rate, channels := st.channels,
    width := st.width, depth := st.depth, endianness := st.endianness,
    sign := st.sign, chanPos := none }

/-- For int structures without a depth field but with a fixed width, default
depth to the width. -/
def defaultDepth (s : AStruct) : AStruct :=
  if s.isFloat = false ∧ s.depth.isNone = true ∧ (getInt s.width).isSome = true
  then { s with depth := s.width }
  else s

/-- The working structure after the Tier A (lossless) step: this is the
structure merged into the result as the first, same-kind entry. -/
def s_afterA (st : AStruct) : AStruct :=
  make_lossless_changes (defaultDepth (stripToNegotiable st)) st.isFloat

/-- Tier B width/depth growth on the working structure (int only): widen a
fixed input width to [width, 32] and a fixed input depth to [depth, 32]
(kept fixed when already 32). -/
def widenWidthDepth (st s : AStruct) : AStruct :=
  if st.isFloat then s
  else
    let s := match getInt st.width with
      | some w => set_structure_widths s w 32
      | none => s
    match getInt st.depth with
    | some d =>
      if d = 32 then { s with depth := some (.vint 32) }
      else { s with depth := some (.vintRange d 32) }
    | none => s

/-- Tier B channel handling: pin count (and carry the input layout) when
mixing is not allowed; otherwise grow the count toward 11 and drop the
layout. -/
def tierB_chan (st s : AStruct) : AStruct :=
  if allow_mixing st = false then
    { s with channels := some (.vint (chanVal st)),
             chanPos := match st.chanPos with
               | some v => some v
               | none => s.chanPos }
  else
    let c := chanVal st
    let cv : GVal :=
      if c = 0 then .vintRange 1 11
      else if c = 11 then .vint 11
      else .vintRange c 11
    { s with channels := some cv, chanPos := none }

/-- The working structure at the Tier B emission point. -/
def s_afterB (st : AStruct) : AStruct :=
  tierB_chan st (widenWidthDepth st (s_afterA st))

/-- Tier D channel handling: allow reduction to [1, 11] dropping the layout
when mixing is allowed; otherwise re-pin the exact input count/layout. -/
def tierD_chan (st s : AStruct) : AStruct :=
  if allow_mixing st then
    { s with channels := some (.vintRange 1 11), chanPos := none }
  else
    { s with channels := some (.vint (chanVal st)),
             chanPos := match st.chanPos with
               | some v => some v
               | none => s.chanPos }

/-- The working structure at the Tier D emission point (Tier C only operates
on copies, so the working structure is unchanged between B and D). -/
def s_afterD (st : AStruct) : AStruct :=
  tierD_chan st (s_afterB st)

/-! ### Fixation primitives

Modelled from the spec: `gst_structure_fixate_field_nearest_int` and
`gst_structure_fixate_field_boolean` belong to the GStreamer core library,
whose source is not part of this repository; the spec describes them as
"fixate to the value in the candidate's allowed set/range numerically nearest
to the input's fixed value (ties broken toward the lower value)" and
"fixate to the input's boolean value if the candidate still allows a
choice". -/

/-- Whether `x` is a strictly better pick than `best` for target `t`:
strictly nearer, or equally near and lower. -/
def betterInt (t x best : Int) : Bool :=
  decide ((t - x).natAbs < (t - best).natAbs) ||
  (decide ((t - x).natAbs = (t - best).natAbs) && decide (x < best))

/-- Scan a value list for the integer entry nearest to `t`, ties toward the
lower value; non-integer entries are skipped. -/
def nearestIntAux (t : Int) : List GVal → Option Int → Option Int
  | [], acc => acc
  | .vint x :: vs, none => nearestIntAux t vs (some x)
  | .vint x :: vs, some b =>
    nearestIntAux t vs (some (if betterInt t x b then x else b))
  | _ :: vs, acc => nearestIntAux t vs acc

/-- Modelled from the spec: nearest-value fixation of one field value toward
target `t`.  A fixed int is left alone; a range is clamped; a list is
searched for the nearest integer entry (ties toward the lower value); other
values are left alone. -/
def fixateNearestVal (g : GVal) (t : Int) : GVal :=
  match g with
  | .vint v => .vint v
  | .vintRange lo hi => .vint (min (max t lo) hi)
  | .vlist vs =>
    match nearestIntAux t vs none with
    | some b => .vint b
    | none => .vlist vs
  | g => g

/-- First boolean entry of a value list, preferring the target. -/
def pickBoolAux (t : Bool) : List GVal → Option Bool → Option Bool
  | [], acc => acc
  | .vbool x :: vs, none => pickBoolAux t vs (some x)
  | .vbool x :: vs, some b =>
    pickBoolAux t vs (some (if x = t then x else b))
  | _ :: vs, acc => pickBoolAux t vs acc

/-- Modelled from the spec: boolean fixation of one field value toward target
`t`: a list still offering a choice is fixated to the input's boolean when
available. -/
def fixateBoolVal (g : GVal) (t : Bool) : GVal :=
  match g with
  | .vbool b => .vbool b
  | .vlist vs =>
    match pickBoolAux t vs none with
    | some b => .vbool b
    | none => .vlist vs
  | g => g

/-- Per-field fixation step of `gst_audio_convert_fixate_caps`: fixate the
candidate field toward the input's fixed value when both exist. -/
def fixateField (target : Option Int) (v : Option GVal) : Option GVal :=
  match target, v with
  | some t, some g => some (fixateNearestVal g t)
  | _, _ => v

/-! ### Channel-layout fixation (`gst_audio_convert_fixate_channels`) -/

/-- The `default_positions` table: built-in default layout per channel count
(1 through 8). -/
def default_positions : Nat → List ChannelPos
  | 1 => [.frontMono]
  | 2 => [.frontLeft, .frontRight]
  | 3 => [.frontLeft, .frontRight, .lfe]
  | 4 => [.frontLeft, .frontRight, .rearLeft, .rearRight]
  | 5 => [.frontLeft, .frontRight, .rearLeft, .rearRight, .frontCenter]
  | 6 => [.frontLeft, .frontRight, .rearLeft, .rearRight, .frontCenter, .lfe]
  | 7 => [.frontLeft, .frontRight, .rearLeft, .rearRight, .frontCenter, .lfe,
          .rearCenter]
  | 8 => [.frontLeft, .frontRight, .rearLeft, .rearRight, .frontCenter, .lfe,
          .sideLeft, .sideRight]
  | _ => []

/-- `GST_VALUE_HOLDS_ARRAY (v) && gst_value_array_get_size (v) == chans`. -/
def isRightArray (g : GVal) (chans : Int) : Bool :=
  match g with
  | .varray ps => (ps.length : Int) == chans
  | _ => false

/-- Search of a value list for the first concrete position array of the
right length (the list case of `find_suitable_channel_layout`). -/
def findLayoutInList : List GVal → Int → Option GVal
  | [], _ => none
  | v :: vs, chans =>
    match v with
    | .varray ps =>
      if (ps.length : Int) = chans then some (.varray ps)
      else findLayoutInList vs chans
    | .vlist ws =>
      match findLayoutInList ws chans with
      | some r => some r
      | none => findLayoutInList vs chans
    | _ => findLayoutInList vs chans

/-- `find_suitable_channel_layout`: the first concrete position array of the
right length, searching lists recursively. -/
def find_suitable_channel_layout : GVal → Int → Option GVal
  | .varray ps, chans =>
    if (ps.length : Int) = chans then some (.varray ps) else none
  | .vlist vs, chans => findLayoutInList vs chans
  | _, _ => none

/-- Modelled from the spec: `gst_value_intersect` of the input's fixed layout
value with the candidate's constraint is non-empty iff the fixed value is
among the constraint's values ("a field is compatible if its value
sets/ranges overlap"). -/
def valMem (v : GVal) : GVal → Bool
  | .vlist vs => memAny vs
  | g => GVal.beq v g
where memAny : List GVal → Bool
  | [] => false
  | g :: gs => valMem v g || memAny gs

/-- The `out_layout != NULL && GST_VALUE_HOLDS_LIST (out_layout)` descent:
replace a layout list by the first right-length array it contains. -/
def descendLayoutList (out_layout : Option GVal) (out_chans : Int) :
    Option GVal :=
  match out_layout with
  | some (.vlist vs) => findLayoutInList vs out_chans
  | other => other

/-- Stage of `gst_audio_convert_fixate_channels` after the
`in_chans == out_chans && in_layout != NULL` block has been left: descend
into a layout list, use a right-length array if found, otherwise fall back
to the default table. -/
def afterStep4 (out_layout : Option GVal) (out_chans : Int)
    (outs : AStruct) : AStruct :=
  match descendLayoutList out_layout out_chans with
  | some ol =>
    if isRightArray ol out_chans then { outs with chanPos := some ol }
    else if 0 < out_chans ∧ out_chans ≤ 8 then
      { outs with chanPos := some (.varray (default_positions out_chans.toNat)) }
    else outs
  | none =>
    if 0 < out_chans ∧ out_chans ≤ 8 then
      { outs with chanPos := some (.varray (default_positions out_chans.toNat)) }
    else outs

/-- Body of `gst_audio_convert_fixate_channels` past the early returns:
the same-count/input-layout preference chain, then `afterStep4`.  The final
default-table write models `gst_audio_set_channel_positions`. -/
def fixateChannelsRest (in_chans out_chans : Int)
    (in_layout out_layout : Option GVal) (outs : AStruct) : AStruct :=
  match in_layout with
  | some il =>
    if in_chans = out_chans then
      match out_layout with
      | none => { outs with chanPos := some il }
      | some ol =>
        if isRightArray ol out_chans then outs
        else if valMem il ol then { outs with chanPos := some il }
        else
          match find_suitable_channel_layout ol out_chans with
          | some l => { outs with chanPos := some l }
          | none => afterStep4 none out_chans outs
    else afterStep4 out_layout out_chans outs
  | none => afterStep4 out_layout out_chans outs

/-- `gst_audio_convert_fixate_channels`: fixate the candidate's channel
count toward the input's, then resolve the channel layout. -/
def gst_audio_convert_fixate_channels (ins outs : AStruct) : AStruct :=
  match getInt ins.channels with
  | none => outs
  | some in_chans =>
    if outs.channels.isNone = true then { outs with chanPos := none }
    else
      let outs1 :=
        { outs with channels :=
            outs.channels.map (fun g => fixateNearestVal g in_chans) }
      match getInt outs1.channels with
      | none => { outs1 with chanPos := none }
      | some out_chans =>
        let out_layout := outs1.chanPos
        let in_layout := ins.chanPos
        if out_layout.isNone = true ∧ out_chans ≤ 2 ∧
            (in_chans ≠ out_chans ∨ in_layout.isNone = true) then outs1
        else fixateChannelsRest in_chans out_chans in_layout out_layout outs1

/-- The numeric steps of `gst_audio_convert_fixate_caps` after channel
fixation: rate, endianness, width, depth, signedness, in source order.
When the input carries no depth the C code fixates the candidate depth
toward its local `width` variable, which holds the input's fixed width; the
C local is read uninitialized when the input has no fixed width, and the
model performs no depth fixation in that case. -/
def fixateNumericFields (ins o : AStruct) : AStruct :=
  let o := { o with rate := fixateField (getInt ins.rate) o.rate }
  let o := { o with endianness := fixateField (getInt ins.endianness) o.endianness }
  let o := { o with width := fixateField (getInt ins.width) o.width }
  let depthTarget := match getInt ins.depth with
    | some d => some d
    | none => getInt ins.width
  let o := { o with depth := fixateField depthTarget o.depth }
  { o with sign := match getBool ins.sign, o.sign with
      | some b, some g => some (fixateBoolVal g b)
      | _, _ => o.sign }

/-- `gst_audio_convert_fixate_caps`: requires fixed input caps, fixates
channels/layout first, then the numeric fields and signedness. -/
def gst_audio_convert_fixate_caps (ins outs : AStruct) : AStruct :=
  if structIsFixed ins = false then outs
  else fixateNumericFields ins (gst_audio_convert_fixate_channels ins outs)

/-! ### Caps parsing and sizing -/

/-- Modelled from the spec: the external helper
`gst_audio_get_channel_positions` returns the layout array when the field
holds one of matching length, supplies the implicit default layout for one
or two channels when the field is absent, and fails otherwise. -/
def gst_audio_get_channel_positions (s : AStruct) (channels : Int) :
    Option (List ChannelPos) :=
  match s.chanPos with
  | some (.varray ps) =>
    if (ps.length : Int) = channels then some ps else none
  | none =>
    if 1 ≤ channels ∧ channels ≤ 2 then some (default_positions channels.toNat)
    else none
  | _ => none

/-- `AudioConvertFmt`: the parsed fixed format. -/
structure AudioConvertFmt where
  is_int : Bool
  endianness : Int
  sign : Bool
  depth : Int
  rate : Int
  width : Int
  channels : Int
  unpositioned_layout : Bool
  pos : List ChannelPos
  unit_size : Int
  deriving Repr, DecidableEq

/-- `gst_audio_convert_parse_caps`: convert fixed caps to an
`AudioConvertFmt`; `none` models a FALSE return after
`audio_convert_clean_fmt` (no format state retained). -/
def gst_audio_convert_parse_caps (s : AStruct) : Option AudioConvertFmt :=
  if structIsFixed s = false then none
  else
    let is_int := !s.isFloat
    match getInt s.channels with
    | none => none
    | some channels =>
      match gst_audio_get_channel_positions s channels with
      | none => none
      | some pos =>
        let unpositioned := match structure_has_fixed_channel_positions s with
          | some u => u
          | none => false
        match getInt s.width with
        | none => none
        | some width =>
          match getInt s.rate with
          | none => none
          | some rate =>
            match (if width ≠ 8 then getInt s.endianness else some g_byte_order) with
            | none => none
            | some endianness =>
              if is_int then
                match getBool s.sign, getInt s.depth with
                | some sg, some depth =>
                  if depth > width then none
                  else some ⟨true, endianness, sg, depth, rate, width, channels,
                    unpositioned, pos, (width * channels) / 8⟩
                | _, _ => none
              else
                some ⟨false, endianness, false, 0, rate, width, channels,
                  unpositioned, pos, (width * channels) / 8⟩

/-- The sample-count computation of `gst_audio_convert_transform`:
`samples = gst_buffer_get_size (inbuf) / this->ctx.in.unit_size`, a
truncating division. -/
def gst_audio_convert_transform_samples (fmt : AudioConvertFmt)
    (bufSize : Nat) : Nat :=
  bufSize / fmt.unit_size.toNat

/-! ### Supporting lemmas -/

theorem getInt_eq_some (v : Option GVal) (c : Int) :
    getInt v = some c ↔ v = some (.vint c) := by
  cases v with
  | none => simp [getInt]
  | some g => cases g <;> simp [getInt]

theorem fixateNearestVal_of_fixed (g : GVal) (t : Int)
    (h : isFixedVal g = true) : fixateNearestVal g t = g := by
  cases g <;> simp [isFixedVal] at h ⊢ <;> rfl

theorem fixateBoolVal_of_fixed (g : GVal) (b : Bool)
    (h : isFixedVal g = true) : fixateBoolVal g b = g := by
  cases g <;> simp [isFixedVal] at h ⊢ <;> rfl

theorem fixateField_of_fixed (tgt : Option Int) (v : Option GVal)
    (h : optFixed v = true) : fixateField tgt v = v := by
  cases tgt with
  | none => cases v <;> rfl
  | some t =>
    cases v with
    | none => rfl
    | some g => simp [fixateField, fixateNearestVal_of_fixed g t h]

theorem fixateNumericFields_eq (ins o : AStruct) :
    fixateNumericFields ins o =
      { o with
        rate := fixateField (getInt ins.rate) o.rate,
        endianness := fixateField (getInt ins.endianness) o.endianness,
        width := fixateField (getInt ins.width) o.width,
        depth := fixateField
          (match getInt ins.depth with
           | some d => some d
           | none => getInt ins.width) o.depth,
        sign := match getBool ins.sign, o.sign with
          | some b, some g => some (fixateBoolVal g b)
          | _, _ => o.sign } := rfl

theorem fixateNumericFields_of_fixed (ins o : AStruct)
    (h : structIsFixed o = true) : fixateNumericFields ins o = o := by
  unfold structIsFixed at h
  simp only [Bool.and_eq_true] at h
  obtain ⟨⟨⟨⟨⟨⟨hr, hc⟩, hw⟩, hd⟩, he⟩, hs⟩, hp⟩ := h
  rw [fixateNumericFields_eq]
  rw [fixateField_of_fixed _ _ hr, fixateField_of_fixed _ _ he,
    fixateField_of_fixed _ _ hw, fixateField_of_fixed _ _ hd]
  have hm : (match getBool ins.sign, o.sign with
      | some b, some g => some (fixateBoolVal g b)
      | _, _ => o.sign) = o.sign := by
    cases hb : getBool ins.sign with
    | none => rfl
    | some b =>
      cases hsv : o.sign with
      | none => rfl
      | some g =>
        rw [hsv] at hs
        simp only [optFixed] at hs
        simp [fixateBoolVal_of_fixed g b hs]
  rw [hm]

/-- The ordering underlying nearest-value fixation: `b` is at least as near
to `t` as `x`, ties resolved toward the lower value. -/
def nearer (t b x : Int) : Prop :=
  (t - b).natAbs < (t - x).natAbs ∨
  ((t - b).natAbs = (t - x).natAbs ∧ b ≤ x)

theorem nearer_refl (t b : Int) : nearer t b b := Or.inr ⟨rfl, le_refl b⟩

theorem nearer_trans {t a b c : Int} (h1 : nearer t a b) (h2 : nearer t b c) :
    nearer t a c := by
  unfold nearer at h1 h2 ⊢
  omega

theorem betterInt_false {t x b : Int} (h : betterInt t x b = false) :
    nearer t b x := by
  unfold betterInt at h
  unfold nearer
  simp only [Bool.or_eq_false_iff, Bool.and_eq_false_iff,
    decide_eq_false_iff_not] at h
  omega

theorem betterInt_true {t x b : Int} (h : betterInt t x b = true) :
    nearer t x b := by
  unfold betterInt at h
  unfold nearer
  simp only [Bool.or_eq_true, Bool.and_eq_true, decide_eq_true_eq] at h
  omega

/-- A value list consisting only of fixed integers (the shape of the
enumerated sets produced by the expander). -/
def intListOnly : List GVal → Bool
  | [] => true
  | .vint _ :: vs => intListOnly vs
  | _ :: _ => false

theorem intValMem_vlist_nil (x : Int) : intValMem x (.vlist []) = false := rfl

theorem intValMem_vlist_cons (x : Int) (v : GVal) (vs : List GVal) :
    intValMem x (.vlist (v :: vs)) =
      (intValMem x v || intValMem x (.vlist vs)) := rfl

theorem nearestIntAux_sound (t : Int) :
    ∀ (vs : List GVal) (a : Int), intListOnly vs = true →
      ∃ b, nearestIntAux t vs (some a) = some b ∧
        (b = a ∨ intValMem b (.vlist vs) = true) ∧
        nearer t b a ∧
        (∀ x, intValMem x (.vlist vs) = true → nearer t b x) := by
  intro vs
  induction vs with
  | nil =>
    intro a _
    refine ⟨a, rfl, Or.inl rfl, nearer_refl t a, ?_⟩
    intro x hx
    rw [intValMem_vlist_nil] at hx
    exact absurd hx (by simp)
  | cons v vs ih =>
    intro a honly
    cases v with
    | vint y =>
      have honly2 : intListOnly vs = true := honly
      obtain ⟨b, heq, hmem, hba, hall⟩ :=
        ih (if betterInt t y a then y else a) honly2
      refine ⟨b, heq, ?_, ?_, ?_⟩
      · rcases hmem with hmem | hmem
        · by_cases hby : betterInt t y a = true
          · rw [hby] at hmem
            simp only [if_true] at hmem
            right
            rw [intValMem_vlist_cons]
            simp [intValMem, hmem]
          · rw [Bool.not_eq_true] at hby
            rw [hby] at hmem
            simp at hmem
            exact Or.inl hmem
        · right
          rw [intValMem_vlist_cons, hmem]
          simp
      · by_cases hby : betterInt t y a = true
        · rw [hby] at hba
          simp only [if_true] at hba
          exact nearer_trans hba (betterInt_true hby)
        · rw [Bool.not_eq_true] at hby
          rw [hby] at hba
          simpa using hba
      · intro x hx
        rw [intValMem_vlist_cons, Bool.or_eq_true] at hx
        rcases hx with hx | hx
        · simp only [intValMem, beq_iff_eq] at hx
          rw [hx]
          by_cases hby : betterInt t y a = true
          · rw [hby] at hba
            simpa using hba
          · rw [Bool.not_eq_true] at hby
            rw [hby] at hba
            simp at hba
            exact nearer_trans hba (betterInt_false hby)
        · exact hall x hx
    | vbool b0 => simp [intListOnly] at honly
    | vintRange lo hi => simp [intListOnly] at honly
    | vlist ws => simp [intListOnly] at honly
    | varray ps => simp [intListOnly] at honly

theorem nearestIntAux_start (t : Int) (vs : List GVal)
    (honly : intListOnly vs = true) (hne : vs ≠ []) :
    ∃ b, nearestIntAux t vs none = some b ∧
      intValMem b (.vlist vs) = true ∧
      (∀ x, intValMem x (.vlist vs) = true → nearer t b x) := by
  cases vs with
  | nil => exact absurd rfl hne
  | cons v vs =>
    cases v with
    | vint y =>
      obtain ⟨b, heq, hmem, hby, hall⟩ := nearestIntAux_sound t vs y honly
      refine ⟨b, heq, ?_, ?_⟩
      · rw [intValMem_vlist_cons, Bool.or_eq_true]
        rcases hmem with hmem | hmem
        · subst hmem
          left
          simp [intValMem]
        · exact Or.inr hmem
      · intro x hx
        rw [intValMem_vlist_cons, Bool.or_eq_true] at hx
        rcases hx with hx | hx
        · simp only [intValMem, beq_iff_eq] at hx
          subst hx
          exact hby
        · exact hall x hx
    | vbool b0 => simp [intListOnly] at honly
    | vintRange lo hi => simp [intListOnly] at honly
    | vlist ws => simp [intListOnly] at honly
    | varray ps => simp [intListOnly] at honly

/-- A candidate field value that still offers a genuine integer choice: a
non-empty range or a non-empty enumerated list of fixed integers. -/
def hasIntChoice : GVal → Prop
  | .vintRange lo hi => lo ≤ hi
  | .vlist vs => intListOnly vs = true ∧ vs ≠ []
  | _ => False

theorem fixateNearest_sound (g : GVal) (t : Int) (h : hasIntChoice g) :
    ∃ b, fixateNearestVal g t = .vint b ∧ intValMem b g = true ∧
      ∀ x, intValMem x g = true → nearer t b x := by
  cases g with
  | vint v => exact absurd h (by simp [hasIntChoice])
  | vbool b => exact absurd h (by simp [hasIntChoice])
  | varray ps => exact absurd h (by simp [hasIntChoice])
  | vintRange lo hi =>
    have hlh : lo ≤ hi := h
    refine ⟨min (max t lo) hi, rfl, ?_, ?_⟩
    · simp only [intValMem, Bool.and_eq_true, decide_eq_true_eq]
      omega
    · intro x hx
      simp only [intValMem, Bool.and_eq_true, decide_eq_true_eq] at hx
      unfold nearer
      omega
  | vlist vs =>
    obtain ⟨honly, hne⟩ := h
    obtain ⟨b, heq, hmem, hall⟩ := nearestIntAux_start t vs honly hne
    refine ⟨b, ?_, hmem, hall⟩
    simp [fixateNearestVal, heq]

/-- Agreement on every field except `channels` and `chanPos`. -/
def sameNonChan (a b : AStruct) : Prop :=
  a.rate = b.rate ∧ a.width = b.width ∧ a.depth = b.depth ∧
  a.endianness = b.endianness ∧ a.sign = b.sign ∧ a.isFloat = b.isFloat

theorem sameNonChan_refl (a : AStruct) : sameNonChan a a :=
  ⟨rfl, rfl, rfl, rfl, rfl, rfl⟩

theorem afterStep4_sameNonChan (ol : Option GVal) (oc : Int) (o : AStruct) :
    sameNonChan (afterStep4 ol oc o) o := by
  unfold afterStep4
  repeat' split
  all_goals exact ⟨rfl, rfl, rfl, rfl, rfl, rfl⟩

theorem fixateChannelsRest_sameNonChan (ic oc : Int)
    (il ol : Option GVal) (o : AStruct) :
    sameNonChan (fixateChannelsRest ic oc il ol o) o := by
  unfold fixateChannelsRest
  repeat' split
  all_goals first
    | exact afterStep4_sameNonChan _ _ _
    | exact ⟨rfl, rfl, rfl, rfl, rfl, rfl⟩

theorem fixate_channels_sameNonChan (ins outs : AStruct) :
    sameNonChan (gst_audio_convert_fixate_channels ins outs) outs := by
  unfold gst_audio_convert_fixate_channels
  dsimp only
  repeat' split
  all_goals first
    | exact fixateChannelsRest_sameNonChan _ _ _ _ _
    | exact ⟨rfl, rfl, rfl, rfl, rfl, rfl⟩

theorem chanVal_eq {st : AStruct} {c : Int}
    (hc : getInt st.channels = some c) : chanVal st = c := by
  unfold chanVal
  rw [hc]
  rfl

theorem unpositioned_layout_detected (st : AStruct) (c : Int)
    (qs : List ChannelPos) (hc : getInt st.channels = some c)
    (hp : st.chanPos = some (.varray qs))
    (hh : qs.head? = some ChannelPos.posNone)
    (hl : (qs.length : Int) = c) :
    structure_has_fixed_channel_positions st = some true := by
  unfold structure_has_fixed_channel_positions
  rw [hc, hp]
  simp [isFixedVal, hl, hh]

theorem allow_mixing_false_of_unpos {st : AStruct} {c : Int}
    (hc : getInt st.channels = some c)
    (h : structure_has_fixed_channel_positions st = some true) :
    allow_mixing st = false := by
  unfold allow_mixing
  rw [hc, h]
  rfl

theorem tierB_channels_pinned {st : AStruct} {c : Int}
    (hc : getInt st.channels = some c) (hmix : allow_mixing st = false) :
    (s_afterB st).channels = some (.vint c) := by
  simp [s_afterB, tierB_chan, hmix, chanVal_eq hc]

theorem tierD_channels_pinned {st : AStruct} {c : Int}
    (hc : getInt st.channels = some c) (hmix : allow_mixing st = false) :
    (s_afterD st).channels = some (.vint c) := by
  simp [s_afterD, tierD_chan, hmix, chanVal_eq hc]

/-! ### Claim C3 -/

/-- Claim C3: for every fixed integer input, the Tier A (lossless)
descriptor contains both endianness values and both signedness values while
width, depth, rate and channel count stay fixed to the input's values. -/
theorem claim_C3_tierA_lossless (st : AStruct) (w d r c : Int)
    (hf : st.isFloat = false)
    (hw : st.width = some (.vint w)) (hd : st.depth = some (.vint d))
    (hr : st.rate = some (.vint r)) (hc : st.channels = some (.vint c)) :
    (s_afterA st).endianness =
      some (.vlist [.vint littleEndian, .vint bigEndian]) ∧
    (s_afterA st).sign = some (.vlist [.vbool true, .vbool false]) ∧
    (s_afterA st).width = some (.vint w) ∧
    (s_afterA st).depth = some (.vint d) ∧
    (s_afterA st).rate = some (.vint r) ∧
    (s_afterA st).channels = some (.vint c) := by
  simp [s_afterA, make_lossless_changes, defaultDepth, stripToNegotiable,
    hf, hd, hw, hr, hc]

theorem claim_C3_tierA_lossless_witness :
    (s_afterA ⟨false, some (.vint 44100), some (.vint 2), some (.vint 16),
        some (.vint 16), some (.vint 1234), some (.vbool true),
        none⟩).endianness =
      some (.vlist [.vint littleEndian, .vint bigEndian]) ∧
    (s_afterA ⟨false, some (.vint 44100), some (.vint 2), some (.vint 16),
        some (.vint 16), some (.vint 1234), some (.vbool true),
        none⟩).sign = some (.vlist [.vbool true, .vbool false]) ∧
    (s_afterA ⟨false, some (.vint 44100), some (.vint 2), some (.vint 16),
        some (.vint 16), some (.vint 1234), some (.vbool true),
        none⟩).width = some (.vint 16) ∧
    (s_afterA ⟨false, some (.vint 44100), some (.vint 2), some (.vint 16),
        some (.vint 16), some (.vint 1234), some (.vbool true),
        none⟩).depth = some (.vint 16) ∧
    (s_afterA ⟨false, some (.vint 44100), some (.vint 2), some (.vint 16),
        some (.vint 16), some (.vint 1234), some (.vbool true),
        none⟩).rate = some (.vint 44100) ∧
    (s_afterA ⟨false, some (.vint 44100), some (.vint 2), some (.vint 16),
        some (.vint 16), some (.vint 1234), some (.vbool true),
        none⟩).channels = some (.vint 2) :=
  claim_C3_tierA_lossless _ 16 16 44100 2 rfl rfl rfl rfl rfl

/-! ### Claim C4 -/

/-- Claim C4: with mixing eligible, Tier B's channel constraint is
[1, 11] for count 0, exactly 11 for count 11, [c, 11] otherwise; it never
contains a value below the input count, and the layout is dropped. -/
theorem claim_C4_tierB_channels (st : AStruct)
    (hm : allow_mixing st = true) :
    (s_afterB st).chanPos = none ∧
    (s_afterB st).channels = some
      (if chanVal st = 0 then GVal.vintRange 1 11
       else if chanVal st = 11 then GVal.vint 11
       else GVal.vintRange (chanVal st) 11) ∧
    (∀ g x, (s_afterB st).channels = some g → intValMem x g = true →
      chanVal st ≤ x) := by
  have h2 : (s_afterB st).channels = some
      (if chanVal st = 0 then GVal.vintRange 1 11
       else if chanVal st = 11 then GVal.vint 11
       else GVal.vintRange (chanVal st) 11) := by
    simp [s_afterB, tierB_chan, hm]
  refine ⟨by simp [s_afterB, tierB_chan, hm], h2, ?_⟩
  intro g x hg hx
  rw [h2, Option.some_inj] at hg
  subst hg
  split at hx
  · simp only [intValMem, Bool.and_eq_true, decide_eq_true_eq] at hx
    omega
  · split at hx
    · simp only [intValMem, beq_iff_eq] at hx
      omega
    · simp only [intValMem, Bool.and_eq_true, decide_eq_true_eq] at hx
      omega

theorem claim_C4_tierB_channels_witness :
    (s_afterB ⟨false, some (.vint 44100), some (.vint 2), some (.vint 16),
        some (.vint 16), some (.vint 1234), some (.vbool true),
        none⟩).chanPos = none ∧
    (s_afterB ⟨false, some (.vint 44100), some (.vint 2), some (.vint 16),
        some (.vint 16), some (.vint 1234), some (.vbool true),
        none⟩).channels = some (.vintRange 2 11) := by
  have h := claim_C4_tierB_channels
    ⟨false, some (.vint 44100), some (.vint 2), some (.vint 16),
      some (.vint 16), some (.vint 1234), some (.vbool true), none⟩ rfl
  exact ⟨h.1, h.2.1⟩

/-! ### Claim C5 -/

/-- Claim C5: an input with a fixed (unpositioned) layout whose first
position is the none-position and fixed channel count keeps that exact
count and layout in the Tier B and Tier D descriptors. -/
theorem claim_C5_unpositioned_pins_channels (st : AStruct) (c : Int)
    (qs : List ChannelPos)
    (hc : getInt st.channels = some c)
    (hp : st.chanPos = some (.varray qs))
    (hh : qs.head? = some ChannelPos.posNone)
    (hl : (qs.length : Int) = c) :
    allow_mixing st = false ∧
    (s_afterB st).channels = some (.vint c) ∧
    (s_afterB st).chanPos = some (.varray qs) ∧
    (s_afterD st).channels = some (.vint c) ∧
    (s_afterD st).chanPos = some (.varray qs) := by
  have hmix : allow_mixing st = false :=
    allow_mixing_false_of_unpos hc
      (unpositioned_layout_detected st c qs hc hp hh hl)
  refine ⟨hmix, tierB_channels_pinned hc hmix, ?_,
    tierD_channels_pinned hc hmix, ?_⟩
  · simp [s_afterB, tierB_chan, hmix, hp]
  · simp [s_afterD, tierD_chan, hmix, hp]

theorem claim_C5_unpositioned_witness :
    allow_mixing ⟨false, some (.vint 44100), some (.vint 5),
      some (.vint 16), some (.vint 16), some (.vint 1234),
      some (.vbool true),
      some (.varray [.posNone, .posNone, .posNone, .posNone, .posNone])⟩ =
      false ∧
    (s_afterB ⟨false, some (.vint 44100), some (.vint 5),
      some (.vint 16), some (.vint 16), some (.vint 1234),
      some (.vbool true),
      some (.varray [.posNone, .posNone, .posNone, .posNone,
        .posNone])⟩).channels = some (.vint 5) ∧
    (s_afterD ⟨false, some (.vint 44100), some (.vint 5),
      some (.vint 16), some (.vint 16), some (.vint 1234),
      some (.vbool true),
      some (.varray [.posNone, .posNone, .posNone, .posNone,
        .posNone])⟩).channels = some (.vint 5) := by
  have h := claim_C5_unpositioned_pins_channels
    ⟨false, some (.vint 44100), some (.vint 5), some (.vint 16),
      some (.vint 16), some (.vint 1234), some (.vbool true),
      some (.varray [.posNone, .posNone, .posNone, .posNone, .posNone])⟩
    5 [.posNone, .posNone, .posNone, .posNone, .posNone]
    rfl rfl rfl rfl
  exact ⟨h.1, h.2.1, h.2.2.2.1⟩

/-! ### Claim C10 -/

/-- Claim C10: a structure with fixed channel count and no (or no fixed)
layout is treated as positioned when the count is at most 8 and as
unpositioned when above 8 (pinning the count at Tiers B and D); a fixed
layout opening with the none-position is unpositioned regardless of the
count. -/
theorem claim_C10_mixing_eligibility (st : AStruct) (c : Int)
    (hc : getInt st.channels = some c) :
    ((st.chanPos = none ∨ ∃ g, st.chanPos = some g ∧ isFixedVal g = false) →
      (c ≤ 8 → allow_mixing st = true) ∧
      (8 < c → allow_mixing st = false ∧
        (s_afterB st).channels = some (.vint c) ∧
        (s_afterD st).channels = some (.vint c))) ∧
    (∀ qs, st.chanPos = some (.varray qs) →
      qs.head? = some ChannelPos.posNone → (qs.length : Int) = c →
      allow_mixing st = false) := by
  constructor
  · intro hun
    have hfv : (match st.chanPos with
        | some g => isFixedVal g
        | none => false) = false := by
      rcases hun with hnone | ⟨g, hg, hfix⟩
      · rw [hnone]
      · rw [hg]
        exact hfix
    constructor
    · intro hle
      unfold allow_mixing structure_has_fixed_channel_positions
      rw [hc]
      simp [hfv, hle]
    · intro hgt
      have hup : structure_has_fixed_channel_positions st = some true := by
        unfold structure_has_fixed_channel_positions
        rw [hc]
        simp [hfv]
        omega
      have hmix := allow_mixing_false_of_unpos hc hup
      exact ⟨hmix, tierB_channels_pinned hc hmix,
        tierD_channels_pinned hc hmix⟩
  · intro qs hp hh hl
    exact allow_mixing_false_of_unpos hc
      (unpositioned_layout_detected st c qs hc hp hh hl)

theorem claim_C10_mixing_eligibility_witness :
    allow_mixing ⟨false, some (.vint 44100), some (.vint 9),
      some (.vint 16), some (.vint 16), some (.vint 1234),
      some (.vbool true), none⟩ = false ∧
    (s_afterB ⟨false, some (.vint 44100), some (.vint 9),
      some (.vint 16), some (.vint 16), some (.vint 1234),
      some (.vbool true), none⟩).channels = some (.vint 9) ∧
    allow_mixing ⟨false, some (.vint 44100), some (.vint 5),
      some (.vint 16), some (.vint 16), some (.vint 1234),
      some (.vbool true), none⟩ = true := by
  have h9 := claim_C10_mixing_eligibility
    ⟨false, some (.vint 44100), some (.vint 9), some (.vint 16),
      some (.vint 16), some (.vint 1234), some (.vbool true), none⟩ 9 rfl
  have h5 := claim_C10_mixing_eligibility
    ⟨false, some (.vint 44100), some (.vint 5), some (.vint 16),
      some (.vint 16), some (.vint 1234), some (.vbool true), none⟩ 5 rfl
  have h9x := h9.1 (Or.inl rfl)
  have h5x := h5.1 (Or.inl rfl)
  exact ⟨(h9x.2 (by omega)).1, (h9x.2 (by omega)).2.1,
    h5x.1 (by omega)⟩

/-! ### Claim C6 -/

/-- Claim C6: parsing a fixed integer descriptor fails, retaining no format
state, exactly when its fixed depth exceeds its fixed width; with
depth ≤ width the same descriptor parses successfully. -/
theorem claim_C6_parse_rejects_depth_gt_width (s : AStruct)
    (c w r d : Int) (sg : Bool)
    (hfix : structIsFixed s = true)
    (hf : s.isFloat = false)
    (hc : getInt s.channels = some c)
    (hw : getInt s.width = some w)
    (hr : getInt s.rate = some r)
    (hpos : (gst_audio_get_channel_positions s c).isSome = true)
    (hsg : getBool s.sign = some sg)
    (hd : getInt s.depth = some d)
    (he : w = 8 ∨ (getInt s.endianness).isSome = true) :
    (d > w → gst_audio_convert_parse_caps s = none) ∧
    (d ≤ w → (gst_audio_convert_parse_caps s).isSome = true) := by
  obtain ⟨pos, hpos2⟩ := Option.isSome_iff_exists.mp hpos
  constructor
  · intro hgt
    by_cases h8 : w = 8
    · simp [gst_audio_convert_parse_caps, hfix, hc, hpos2, hw, hr, hf,
        hsg, hd, h8, hgt]
      omega
    · obtain ⟨e, he2⟩ := Option.isSome_iff_exists.mp (he.resolve_left h8)
      simp [gst_audio_convert_parse_caps, hfix, hc, hpos2, hw, hr, hf,
        hsg, hd, h8, he2, hgt]
  · intro hle
    by_cases h8 : w = 8
    · simp [gst_audio_convert_parse_caps, hfix, hc, hpos2, hw, hr, hf,
        hsg, hd, h8, Int.not_lt.mpr hle]
      omega
    · obtain ⟨e, he2⟩ := Option.isSome_iff_exists.mp (he.resolve_left h8)
      simp [gst_audio_convert_parse_caps, hfix, hc, hpos2, hw, hr, hf,
        hsg, hd, h8, he2, Int.not_lt.mpr hle]

theorem claim_C6_parse_rejects_depth_gt_width_witness :
    ((24 : Int) > 16 →
      gst_audio_convert_parse_caps ⟨false, some (.vint 44100),
        some (.vint 2), some (.vint 16), some (.vint 24),
        some (.vint 1234), some (.vbool true), none⟩ = none) ∧
    ((16 : Int) ≤ 16 →
      (gst_audio_convert_parse_caps ⟨false, some (.vint 44100),
        some (.vint 2), some (.vint 16), some (.vint 16),
        some (.vint 1234), some (.vbool true), none⟩).isSome = true) := by
  have hbad := claim_C6_parse_rejects_depth_gt_width
    ⟨false, some (.vint 44100), some (.vint 2), some (.vint 16),
      some (.vint 24), some (.vint 1234), some (.vbool true), none⟩
    2 16 44100 24 true rfl rfl rfl rfl rfl rfl rfl rfl
    (Or.inr rfl)
  have hgood := claim_C6_parse_rejects_depth_gt_width
    ⟨false, some (.vint 44100), some (.vint 2), some (.vint 16),
      some (.vint 16), some (.vint 1234), some (.vbool true), none⟩
    2 16 44100 16 true rfl rfl rfl rfl rfl rfl rfl rfl
    (Or.inr rfl)
  exact ⟨fun h => hbad.1 h, fun h => hgood.2 h⟩

/-! ### Claim C7 -/

/-- Claim C7: every successfully parsed format has unit size
(width × channels) / 8, and the transform converts
buffer_size / unit_size whole samples, truncating the division. -/
theorem claim_C7_unit_size_and_samples (s : AStruct)
    (fmt : AudioConvertFmt) (w c : Int)
    (hp : gst_audio_convert_parse_caps s = some fmt)
    (hw : getInt s.width = some w)
    (hc : getInt s.channels = some c) :
    fmt.unit_size = (w * c) / 8 ∧
    ∀ n : Nat, gst_audio_convert_transform_samples fmt n =
      n / ((w * c) / 8).toNat := by
  unfold gst_audio_convert_parse_caps at hp
  split at hp
  · exact absurd hp (by simp)
  simp only [hc] at hp
  cases hpos : gst_audio_get_channel_positions s c with
  | none => rw [hpos] at hp; exact absurd hp (by simp)
  | some pos =>
    simp only [hpos, hw] at hp
    cases hr : getInt s.rate with
    | none => rw [hr] at hp; exact absurd hp (by simp)
    | some r =>
      simp only [hr] at hp
      cases hE : (if w ≠ 8 then getInt s.endianness
          else some g_byte_order) with
      | none => rw [hE] at hp; exact absurd hp (by simp)
      | some e =>
        simp only [hE] at hp
        by_cases hfl : s.isFloat = true
        · simp only [hfl] at hp
          simp only [Bool.not_true] at hp
          simp only [Bool.false_eq_true, if_false] at hp
          cases hp
          exact ⟨rfl, fun n => rfl⟩
        · rw [Bool.not_eq_true] at hfl
          simp only [hfl, Bool.not_false, if_true] at hp
          cases hsg : getBool s.sign with
          | none => rw [hsg] at hp; exact absurd hp (by simp)
          | some sg =>
            simp only [hsg] at hp
            cases hd : getInt s.depth with
            | none => rw [hd] at hp; exact absurd hp (by simp)
            | some d =>
              simp only [hd] at hp
              split at hp
              · exact absurd hp (by simp)
              · cases hp
                exact ⟨rfl, fun n => rfl⟩

theorem claim_C7_unit_size_and_samples_witness :
    ∃ fmt, gst_audio_convert_parse_caps ⟨false, some (.vint 44100),
      some (.vint 2), some (.vint 16), some (.vint 16),
      some (.vint 1234), some (.vbool true), none⟩ = some fmt ∧
    fmt.unit_size = 4 ∧
    gst_audio_convert_transform_samples fmt 10 = 2 := by
  refine ⟨⟨true, 1234, true, 16, 44100, 16, 2, false,
    [.frontLeft, .frontRight], 4⟩, rfl, ?_, ?_⟩
  · have h := claim_C7_unit_size_and_samples
      ⟨false, some (.vint 44100), some (.vint 2), some (.vint 16),
        some (.vint 16), some (.vint 1234), some (.vbool true), none⟩
      ⟨true, 1234, true, 16, 44100, 16, 2, false,
        [.frontLeft, .frontRight], 4⟩ 16 2 rfl rfl rfl
    exact h.1.trans (by decide)
  · have h := claim_C7_unit_size_and_samples
      ⟨false, some (.vint 44100), some (.vint 2), some (.vint 16),
        some (.vint 16), some (.vint 1234), some (.vbool true), none⟩
      ⟨true, 1234, true, 16, 44100, 16, 2, false,
        [.frontLeft, .frontRight], 4⟩ 16 2 rfl rfl rfl
    exact (h.2 10).trans (by decide)

/-! ### Claim C1 -/

theorem fixateField_some (t : Int) (v : Option GVal) :
    fixateField (some t) v = Option.map (fun g => fixateNearestVal g t) v := by
  cases v <;> rfl

theorem fixateNumericFields_rate (ins o : AStruct) :
    (fixateNumericFields ins o).rate =
      fixateField (getInt ins.rate) o.rate := rfl

theorem fixateNumericFields_endianness (ins o : AStruct) :
    (fixateNumericFields ins o).endianness =
      fixateField (getInt ins.endianness) o.endianness := rfl

theorem fixateNumericFields_width (ins o : AStruct) :
    (fixateNumericFields ins o).width =
      fixateField (getInt ins.width) o.width := rfl

theorem fixateNumericFields_depth (ins o : AStruct) :
    (fixateNumericFields ins o).depth = fixateField
      (match getInt ins.depth with
       | some d => some d
       | none => getInt ins.width) o.depth := rfl

theorem fixate_caps_main (ins outs : AStruct)
    (hfix : structIsFixed ins = true) :
    gst_audio_convert_fixate_caps ins outs =
      fixateNumericFields ins (gst_audio_convert_fixate_channels ins outs) := by
  simp [gst_audio_convert_fixate_caps, hfix]

/-- Claim C1, amended: with a fixed input width, the candidate's depth is
fixated toward the input's depth when the input has one, and otherwise
toward the input's fixed width (not toward the already-fixated output
width). -/
theorem claim_C1_depth_fixation (ins outs : AStruct) (w : Int)
    (hfix : structIsFixed ins = true)
    (hw : getInt ins.width = some w) :
    (∀ d, getInt ins.depth = some d →
      (gst_audio_convert_fixate_caps ins outs).depth =
        Option.map (fun g => fixateNearestVal g d) outs.depth) ∧
    (getInt ins.depth = none →
      (gst_audio_convert_fixate_caps ins outs).depth =
        Option.map (fun g => fixateNearestVal g w) outs.depth) := by
  have hdp : (gst_audio_convert_fixate_channels ins outs).depth =
      outs.depth := (fixate_channels_sameNonChan ins outs).2.2.1
  rw [fixate_caps_main ins outs hfix]
  constructor
  · intro d hd
    rw [fixateNumericFields_depth]
    simp only [hd, hdp, fixateField_some]
  · intro hd
    rw [fixateNumericFields_depth]
    simp only [hd, hw, hdp, fixateField_some]

/-- Claim C1 counterexample: input with fixed width 24 and no depth,
candidate with width {16} and depth range [1, 32]; the code fixates the
output width to 16 but the depth to 24 (nearest the input width), not to
16 (nearest the fixated output width) as the claim requires. -/
theorem claim_C1_counterexample :
    (gst_audio_convert_fixate_caps
      ⟨false, some (.vint 44100), some (.vint 1), some (.vint 24), none,
        some (.vint 1234), some (.vbool true), none⟩
      ⟨false, some (.vint 44100), some (.vint 1),
        some (.vlist [.vint 16]), some (.vintRange 1 32),
        some (.vint 1234), some (.vbool true), none⟩).width =
      some (.vint 16) ∧
    (gst_audio_convert_fixate_caps
      ⟨false, some (.vint 44100), some (.vint 1), some (.vint 24), none,
        some (.vint 1234), some (.vbool true), none⟩
      ⟨false, some (.vint 44100), some (.vint 1),
        some (.vlist [.vint 16]), some (.vintRange 1 32),
        some (.vint 1234), some (.vbool true), none⟩).depth =
      some (.vint 24) ∧
    ¬ (gst_audio_convert_fixate_caps
      ⟨false, some (.vint 44100), some (.vint 1), some (.vint 24), none,
        some (.vint 1234), some (.vbool true), none⟩
      ⟨false, some (.vint 44100), some (.vint 1),
        some (.vlist [.vint 16]), some (.vintRange 1 32),
        some (.vint 1234), some (.vbool true), none⟩).depth =
      some (.vint 16) := by
  refine ⟨rfl, rfl, ?_⟩
  intro h
  rw [show (gst_audio_convert_fixate_caps
      ⟨false, some (.vint 44100), some (.vint 1), some (.vint 24), none,
        some (.vint 1234), some (.vbool true), none⟩
      ⟨false, some (.vint 44100), some (.vint 1),
        some (.vlist [.vint 16]), some (.vintRange 1 32),
        some (.vint 1234), some (.vbool true), none⟩).depth =
      some (.vint 24) from rfl] at h
  injection h with h2
  injection h2 with h3
  omega

theorem claim_C1_depth_fixation_witness :
    (gst_audio_convert_fixate_caps
      ⟨false, some (.vint 44100), some (.vint 1), some (.vint 24), none,
        some (.vint 1234), some (.vbool true), none⟩
      ⟨false, some (.vint 44100), some (.vint 1),
        some (.vlist [.vint 16]), some (.vintRange 1 32),
        some (.vint 1234), some (.vbool true), none⟩).depth =
      some (.vint 24) := by
  have h := (claim_C1_depth_fixation
    ⟨false, some (.vint 44100), some (.vint 1), some (.vint 24), none,
      some (.vint 1234), some (.vbool true), none⟩
    ⟨false, some (.vint 44100), some (.vint 1),
      some (.vlist [.vint 16]), some (.vintRange 1 32),
      some (.vint 1234), some (.vbool true), none⟩ 24 rfl rfl).2 rfl
  exact h.trans rfl

/-! ### Claim C2 -/

/-- Claim C2: whenever the candidate still has an integer choice in the
rate, byte-order, or width field and the input value for that field is
fixed, the resolver fixates the field to the candidate value nearest the
input's value, ties toward the lower value. -/
theorem claim_C2_nearest_fixation (ins outs : AStruct)
    (hfix : structIsFixed ins = true) :
    (∀ t g, getInt ins.rate = some t → outs.rate = some g →
      hasIntChoice g →
      ∃ b, (gst_audio_convert_fixate_caps ins outs).rate =
          some (.vint b) ∧ intValMem b g = true ∧
          ∀ x, intValMem x g = true → nearer t b x) ∧
    (∀ t g, getInt ins.endianness = some t → outs.endianness = some g →
      hasIntChoice g →
      ∃ b, (gst_audio_convert_fixate_caps ins outs).endianness =
          some (.vint b) ∧ intValMem b g = true ∧
          ∀ x, intValMem x g = true → nearer t b x) ∧
    (∀ t g, getInt ins.width = some t → outs.width = some g →
      hasIntChoice g →
      ∃ b, (gst_audio_convert_fixate_caps ins outs).width =
          some (.vint b) ∧ intValMem b g = true ∧
          ∀ x, intValMem x g = true → nearer t b x) := by
  have hpres := fixate_channels_sameNonChan ins outs
  rw [fixate_caps_main ins outs hfix]
  refine ⟨?_, ?_, ?_⟩
  · intro t g ht hg hch
    obtain ⟨b, hb, hm, hopt⟩ := fixateNearest_sound g t hch
    refine ⟨b, ?_, hm, hopt⟩
    rw [fixateNumericFields_rate, hpres.1, ht, hg, fixateField_some]
    simp [hb]
  · intro t g ht hg hch
    obtain ⟨b, hb, hm, hopt⟩ := fixateNearest_sound g t hch
    refine ⟨b, ?_, hm, hopt⟩
    rw [fixateNumericFields_endianness, hpres.2.2.2.1, ht, hg,
      fixateField_some]
    simp [hb]
  · intro t g ht hg hch
    obtain ⟨b, hb, hm, hopt⟩ := fixateNearest_sound g t hch
    refine ⟨b, ?_, hm, hopt⟩
    rw [fixateNumericFields_width, hpres.2.1, ht, hg, fixateField_some]
    simp [hb]

theorem claim_C2_nearest_fixation_witness :
    (∃ b, (gst_audio_convert_fixate_caps
      ⟨false, some (.vint 44100), some (.vint 1), some (.vint 24),
        some (.vint 24), some (.vint 1234), some (.vbool true), none⟩
      ⟨false, some (.vint 44100), some (.vint 1),
        some (.vintRange 16 32), some (.vintRange 1 32),
        some (.vint 1234), some (.vbool true), none⟩).width =
        some (.vint b) ∧
      intValMem b (.vintRange 16 32) = true ∧
      ∀ x, intValMem x (.vintRange 16 32) = true → nearer 24 b x) ∧
    (gst_audio_convert_fixate_caps
      ⟨false, some (.vint 44100), some (.vint 1), some (.vint 24),
        some (.vint 24), some (.vint 1234), some (.vbool true), none⟩
      ⟨false, some (.vint 44100), some (.vint 1),
        some (.vintRange 16 32), some (.vintRange 1 32),
        some (.vint 1234), some (.vbool true), none⟩).width =
      some (.vint 24) ∧
    (gst_audio_convert_fixate_caps
      ⟨false, some (.vint 44100), some (.vint 1), some (.vint 8),
        some (.vint 8), some (.vint 1234), some (.vbool true), none⟩
      ⟨false, some (.vint 44100), some (.vint 1),
        some (.vintRange 16 32), some (.vintRange 1 32),
        some (.vint 1234), some (.vbool true), none⟩).width =
      some (.vint 16) := by
  refine ⟨?_, rfl, rfl⟩
  exact (claim_C2_nearest_fixation
    ⟨false, some (.vint 44100), some (.vint 1), some (.vint 24),
      some (.vint 24), some (.vint 1234), some (.vbool true), none⟩
    ⟨false, some (.vint 44100), some (.vint 1),
      some (.vintRange 16 32), some (.vintRange 1 32),
      some (.vint 1234), some (.vbool true), none⟩ rfl).2.2 24
    (.vintRange 16 32) rfl rfl (by unfold hasIntChoice; omega)

/-! ### Claim C8 -/

theorem fixateChannelsRest_to_afterStep4 (ic oc : Int)
    (il ol : Option GVal) (o : AStruct)
    (h : il = none ∨ ic ≠ oc) :
    fixateChannelsRest ic oc il ol o = afterStep4 ol oc o := by
  cases il with
  | none => rfl
  | some v =>
    rcases h with h | h
    · exact absurd h (by simp)
    · unfold fixateChannelsRest
      dsimp only
      rw [if_neg h]

theorem afterStep4_default (ol : Option GVal) (oc : Int) (o : AStruct)
    (h : ol = none ∨
      ∃ g, ol = some g ∧ find_suitable_channel_layout g oc = none) :
    afterStep4 ol oc o =
      (if 0 < oc ∧ oc ≤ 8 then
        { o with chanPos := some (.varray (default_positions oc.toNat)) }
      else o) := by
  unfold afterStep4 descendLayoutList
  rcases h with h | ⟨g, hg, hfind⟩
  · rw [h]
  · rw [hg]
    cases g with
    | vlist vs =>
      have h2 : findLayoutInList vs oc = none := hfind
      dsimp only
      rw [h2]
    | varray ps =>
      have hne : ¬ (ps.length : Int) = oc := by
        by_contra hcon
        rw [show find_suitable_channel_layout (.varray ps) oc =
          some (.varray ps) from by simp [find_suitable_channel_layout, hcon]]
          at hfind
        exact Option.noConfusion hfind
      simp only []
      rw [show isRightArray (.varray ps) oc = false from by
        simp [isRightArray, hne]]
      simp
    | vint v => simp [isRightArray]
    | vbool b => simp [isRightArray]
    | vintRange lo hi => simp [isRightArray]

/-- Claim C8, amended: when neither the candidate's layout constraint nor
the input's layout can resolve a layout, and the fixated count is 1–8, the
built-in default layout for that count is adopted — except in the benign
early return where the candidate has no layout field, the fixated count is
at most 2, and the count differs from the input's or the input has no
layout, in which case no layout is set; for fixated counts above 8 the
layout field is left unchanged and no error is raised. -/
theorem claim_C8_default_layout_fallback (ins outs : AStruct)
    (ic oc : Int) (cg : GVal)
    (hic : getInt ins.channels = some ic)
    (hcg : outs.channels = some cg)
    (hoc : fixateNearestVal cg ic = .vint oc)
    (hinl : ins.chanPos = none ∨ ic ≠ oc)
    (houtl : outs.chanPos = none ∨
      ∃ ol, outs.chanPos = some ol ∧
        find_suitable_channel_layout ol oc = none) :
    (1 ≤ oc → oc ≤ 8 →
      ¬(outs.chanPos = none ∧ oc ≤ 2 ∧ (ic ≠ oc ∨ ins.chanPos = none)) →
      (gst_audio_convert_fixate_channels ins outs).chanPos =
        some (.varray (default_positions oc.toNat))) ∧
    (8 < oc →
      (gst_audio_convert_fixate_channels ins outs).chanPos =
        outs.chanPos) := by
  have h1 : gst_audio_convert_fixate_channels ins outs =
      (if outs.chanPos.isNone = true ∧ oc ≤ 2 ∧
          (ic ≠ oc ∨ ins.chanPos.isNone = true)
       then { outs with channels := some (.vint oc) }
       else fixateChannelsRest ic oc ins.chanPos outs.chanPos
         { outs with channels := some (.vint oc) }) := by
    unfold gst_audio_convert_fixate_channels
    rw [hic]
    simp only [hcg, Option.isNone_some, Bool.false_eq_true, if_false]
    rw [show Option.map (fun g => fixateNearestVal g ic) (some cg) =
      some (GVal.vint oc) from congrArg some hoc]
    rfl
  rw [h1]
  constructor
  · intro h1le h8 hne
    have hcond : ¬(outs.chanPos.isNone = true ∧ oc ≤ 2 ∧
        (ic ≠ oc ∨ ins.chanPos.isNone = true)) := by
      rintro ⟨a, b, cdis⟩
      refine hne ⟨Option.isNone_iff_eq_none.mp a, b, ?_⟩
      rcases cdis with cdis | cdis
      · exact Or.inl cdis
      · exact Or.inr (Option.isNone_iff_eq_none.mp cdis)
    rw [if_neg hcond,
      fixateChannelsRest_to_afterStep4 _ _ _ _ _ hinl,
      afterStep4_default _ _ _ houtl,
      if_pos (by omega : 0 < oc ∧ oc ≤ 8)]
  · intro h8
    have hcond : ¬(outs.chanPos.isNone = true ∧ oc ≤ 2 ∧
        (ic ≠ oc ∨ ins.chanPos.isNone = true)) := by
      rintro ⟨_, b, _⟩
      omega
    rw [if_neg hcond,
      fixateChannelsRest_to_afterStep4 _ _ _ _ _ hinl,
      afterStep4_default _ _ _ houtl,
      if_neg (by omega : ¬(0 < oc ∧ oc ≤ 8))]

/-- Claim C8 counterexample: input count 3 with no layout, candidate fixed
at count 2 with no layout field — no layout is resolvable and the fixated
count 2 lies in 1..8, yet the benign early return leaves the result without
any layout instead of adopting the 2-channel default. -/
theorem claim_C8_counterexample :
    (gst_audio_convert_fixate_channels
      ⟨false, some (.vint 44100), some (.vint 3), some (.vint 16),
        some (.vint 16), some (.vint 1234), some (.vbool true), none⟩
      ⟨false, some (.vint 44100), some (.vint 2), some (.vint 16),
        some (.vint 16), some (.vint 1234), some (.vbool true),
        none⟩).channels = some (.vint 2) ∧
    (gst_audio_convert_fixate_channels
      ⟨false, some (.vint 44100), some (.vint 3), some (.vint 16),
        some (.vint 16), some (.vint 1234), some (.vbool true), none⟩
      ⟨false, some (.vint 44100), some (.vint 2), some (.vint 16),
        some (.vint 16), some (.vint 1234), some (.vbool true),
        none⟩).chanPos = none ∧
    ¬ (gst_audio_convert_fixate_channels
      ⟨false, some (.vint 44100), some (.vint 3), some (.vint 16),
        some (.vint 16), some (.vint 1234), some (.vbool true), none⟩
      ⟨false, some (.vint 44100), some (.vint 2), some (.vint 16),
        some (.vint 16), some (.vint 1234), some (.vbool true),
        none⟩).chanPos = some (.varray (default_positions 2)) := by
  refine ⟨rfl, rfl, ?_⟩
  intro h
  rw [show (gst_audio_convert_fixate_channels
      ⟨false, some (.vint 44100), some (.vint 3), some (.vint 16),
        some (.vint 16), some (.vint 1234), some (.vbool true), none⟩
      ⟨false, some (.vint 44100), some (.vint 2), some (.vint 16),
        some (.vint 16), some (.vint 1234), some (.vbool true),
        none⟩).chanPos = none from rfl] at h
  exact Option.noConfusion h

theorem claim_C8_default_layout_fallback_witness :
    (gst_audio_convert_fixate_channels
      ⟨false, some (.vint 44100), some (.vint 6), some (.vint 16),
        some (.vint 16), some (.vint 1234), some (.vbool true), none⟩
      ⟨false, some (.vint 44100), some (.vintRange 1 11),
        some (.vint 16), some (.vint 16), some (.vint 1234),
        some (.vbool true), none⟩).chanPos =
      some (.varray [.frontLeft, .frontRight, .rearLeft, .rearRight,
        .frontCenter, .lfe]) := by
  have h := (claim_C8_default_layout_fallback
    ⟨false, some (.vint 44100), some (.vint 6), some (.vint 16),
      some (.vint 16), some (.vint 1234), some (.vbool true), none⟩
    ⟨false, some (.vint 44100), some (.vintRange 1 11),
      some (.vint 16), some (.vint 16), some (.vint 1234),
      some (.vbool true), none⟩
    6 6 (.vintRange 1 11) rfl rfl rfl (Or.inl rfl) (Or.inl rfl)).1
    (by omega) (by omega)
    (by rintro ⟨_, hb, _⟩; omega)
  exact h.trans rfl

/-! ### Claim C9 -/

theorem update_channels_self (s : AStruct) (v : Option GVal)
    (h : s.channels = v) : ({ s with channels := v } : AStruct) = s := by
  rw [← h]

theorem fixate_channels_self_main (s : AStruct) (c : Int)
    (hch : getInt s.channels = some c)
    (hc : s.channels = some (.vint c)) :
    gst_audio_convert_fixate_channels s s =
      (if s.chanPos.isNone = true ∧ c ≤ 2 ∧
          (c ≠ c ∨ s.chanPos.isNone = true)
       then { s with channels := some (.vint c) }
       else fixateChannelsRest c c s.chanPos s.chanPos
         { s with channels := some (.vint c) }) := by
  unfold gst_audio_convert_fixate_channels
  rw [hch]
  simp only [hc, Option.isNone_some, Bool.false_eq_true, if_false]
  rfl

theorem fixate_channels_self_id (s : AStruct)
    (hlay : (∃ c qs, getInt s.channels = some c ∧
        s.chanPos = some (.varray qs) ∧ (qs.length : Int) = c) ∨
      (s.chanPos = none ∧ ∀ c, getInt s.channels = some c →
        (c ≤ 2 ∨ 8 < c)) ∨
      getInt s.channels = none) :
    gst_audio_convert_fixate_channels s s = s := by
  rcases hlay with ⟨c, qs, hch, hcp, hl⟩ | ⟨hcp, hc8⟩ | hch
  · have hc : s.channels = some (.vint c) := (getInt_eq_some _ _).mp hch
    rw [fixate_channels_self_main s c hch hc,
      if_neg (by simp [hcp]), hcp]
    unfold fixateChannelsRest
    dsimp only
    rw [if_pos rfl,
      if_pos (by simp [isRightArray, hl] : isRightArray (.varray qs) c = true)]
    rw [← hc, ← hcp]
  · cases hch : getInt s.channels with
    | none =>
      unfold gst_audio_convert_fixate_channels
      rw [hch]
    | some c =>
      have hc : s.channels = some (.vint c) := (getInt_eq_some _ _).mp hch
      have hupd : ({ s with channels := some (.vint c) } : AStruct) = s :=
        update_channels_self s _ hc
      rcases hc8 c hch with hle | hgt
      · rw [fixate_channels_self_main s c hch hc,
          if_pos ⟨by simp [hcp], hle, Or.inr (by simp [hcp])⟩]
        exact hupd
      · rw [fixate_channels_self_main s c hch hc,
          if_neg (by rintro ⟨_, hb, _⟩; omega), hcp,
          fixateChannelsRest_to_afterStep4 _ _ _ _ _ (Or.inl rfl),
          afterStep4_default _ _ _ (Or.inl rfl),
          if_neg (by omega : ¬(0 < c ∧ c ≤ 8))]
        rw [← hc, ← hcp]
  · unfold gst_audio_convert_fixate_channels
    rw [hch]

/-- Claim C9, amended: a fully-fixed descriptor fixated against itself as
the sole candidate is returned unchanged provided it either carries its
channel layout (of length equal to its channel count), or carries no layout
and its channel count is at most 2 or above 8 (or it has no fixed channel
count at all); a fixed descriptor with 3–8 channels and no layout field
instead gains the built-in default layout for its count. -/
theorem claim_C9_refixation_identity (s : AStruct)
    (hfix : structIsFixed s = true)
    (hlay : (∃ c qs, getInt s.channels = some c ∧
        s.chanPos = some (.varray qs) ∧ (qs.length : Int) = c) ∨
      (s.chanPos = none ∧ ∀ c, getInt s.channels = some c →
        (c ≤ 2 ∨ 8 < c)) ∨
      getInt s.channels = none) :
    gst_audio_convert_fixate_caps s s = s := by
  rw [fixate_caps_main s s hfix, fixate_channels_self_id s hlay,
    fixateNumericFields_of_fixed s s hfix]

/-- Claim C9 counterexample: the fully-fixed 6-channel integer descriptor
without a layout field is not returned unchanged — fixation against itself
adds the built-in default 6-channel layout. -/
theorem claim_C9_counterexample :
    (gst_audio_convert_fixate_caps
      ⟨false, some (.vint 44100), some (.vint 6), some (.vint 16),
        some (.vint 16), some (.vint 1234), some (.vbool true), none⟩
      ⟨false, some (.vint 44100), some (.vint 6), some (.vint 16),
        some (.vint 16), some (.vint 1234), some (.vbool true),
        none⟩).chanPos =
      some (.varray [.frontLeft, .frontRight, .rearLeft, .rearRight,
        .frontCenter, .lfe]) ∧
    structIsFixed ⟨false, some (.vint 44100), some (.vint 6),
      some (.vint 16), some (.vint 16), some (.vint 1234),
      some (.vbool true), none⟩ = true ∧
    gst_audio_convert_fixate_caps
      ⟨false, some (.vint 44100), some (.vint 6), some (.vint 16),
        some (.vint 16), some (.vint 1234), some (.vbool true), none⟩
      ⟨false, some (.vint 44100), some (.vint 6), some (.vint 16),
        some (.vint 16), some (.vint 1234), some (.vbool true), none⟩ ≠
      ⟨false, some (.vint 44100), some (.vint 6), some (.vint 16),
        some (.vint 16), some (.vint 1234), some (.vbool true), none⟩ := by
  refine ⟨rfl, rfl, ?_⟩
  intro h
  have h2 := congrArg AStruct.chanPos h
  rw [show (gst_audio_convert_fixate_caps
      ⟨false, some (.vint 44100), some (.vint 6), some (.vint 16),
        some (.vint 16), some (.vint 1234), some (.vbool true), none⟩
      ⟨false, some (.vint 44100), some (.vint 6), some (.vint 16),
        some (.vint 16), some (.vint 1234), some (.vbool true),
        none⟩).chanPos =
      some (.varray [.frontLeft, .frontRight, .rearLeft, .rearRight,
        .frontCenter, .lfe]) from rfl] at h2
  exact Option.noConfusion h2

theorem claim_C9_refixation_identity_witness :
    gst_audio_convert_fixate_caps
      ⟨false, some (.vint 44100), some (.vint 2), some (.vint 16),
        some (.vint 16), some (.vint 1234), some (.vbool true),
        some (.varray [.frontLeft, .frontRight])⟩
      ⟨false, some (.vint 44100), some (.vint 2), some (.vint 16),
        some (.vint 16), some (.vint 1234), some (.vbool true),
        some (.varray [.frontLeft, .frontRight])⟩ =
      ⟨false, some (.vint 44100), some (.vint 2), some (.vint 16),
        some (.vint 16), some (.vint 1234), some (.vbool true),
        some (.varray [.frontLeft, .frontRight])⟩ :=
  claim_C9_refixation_identity _ rfl
    (Or.inl ⟨2, [.frontLeft, .frontRight], rfl, rfl, rfl⟩)
